import Mathlib

/-!
Verification of the rpm_praser core pipeline (`src/__main__.py`):
record classification, key sanitization, lexical link resolution,
item building, merge/deduplication, document assembly and the
fallback YAML emitter, shallowly embedded from the Python source.

Python values are embedded as the inductive `PyVal`; a record
dictionary is an association list from string keys to `PyVal`.
Points where the Python code can raise (calling `.strip()` /
`.lower()` on a truthy non-string, iterating a non-iterable,
hashing an unhashable value) are modelled with `Except String`.
String operations model the ASCII fragment of Python semantics
(`str.lower`, `str.strip`), which is the domain the program and
all inputs in this development exercise.
-/

/-- Embedding of the Python values the pipeline manipulates. -/
inductive PyVal where
  | none : PyVal
  | bool : Bool → PyVal
  | int : Int → PyVal
  | str : String → PyVal
  | list : List PyVal → PyVal
  | tuple : List PyVal → PyVal
  | set : List PyVal → PyVal
  | dict : List (String × PyVal) → PyVal

/-- Python truthiness (`bool(v)`) for the embedded values. -/
def PyVal.isTruthy : PyVal → Bool
  | .none => false
  | .bool b => b
  | .int n => decide (n ≠ 0)
  | .str s => decide (s ≠ "")
  | .list xs => !xs.isEmpty
  | .tuple xs => !xs.isEmpty
  | .set xs => !xs.isEmpty
  | .dict kvs => !kvs.isEmpty

/-- Python hashability: lists, sets and dicts are unhashable.  (A tuple
containing an unhashable element is also unhashable in Python; no path
value of this program is a tuple, so tuples are simply treated as
hashable here.) -/
def PyVal.hashable : PyVal → Bool
  | .list _ => false
  | .set _ => false
  | .dict _ => false
  | _ => true

/-- Python `==` as the merge uses it on the hashable path values that can
enter its `seen` set.  Structural on the scalar values; for the program's
domain the compared values are path strings.  (Elementwise comparison of
nested tuples and the cross-type numeric equalities of Python, such as
`True == 1`, concern no value this pipeline compares and are modelled as
plain disequality.) -/
def PyVal.beq : PyVal → PyVal → Bool
  | .none, .none => true
  | .bool a, .bool b => a == b
  | .int a, .int b => a == b
  | .str a, .str b => a == b
  | _, _ => false

/-- ASCII model of Python `str.lower` on a character. -/
def pyLowerChar (c : Char) : Char :=
  if 'A' ≤ c ∧ c ≤ 'Z' then Char.ofNat (c.toNat + 32) else c

/-- ASCII model of Python `str.lower`. -/
def pyLower (s : String) : String :=
  String.mk (s.data.map pyLowerChar)

/-- ASCII model of Python `str.isspace` on a character. -/
def pyIsSpace (c : Char) : Bool :=
  c = ' ' ∨ c = '\t' ∨ c = '\n' ∨ c = '\r' ∨ c.toNat = 11 ∨ c.toNat = 12

/-- ASCII model of Python `str.strip()` (no argument): drop leading and
trailing whitespace. -/
def pyStrip (s : String) : String :=
  String.mk (((s.data.dropWhile pyIsSpace).reverse.dropWhile pyIsSpace).reverse)

/-- Python `str.lstrip("/")`: drop leading slashes. -/
def lstripSlashes (s : String) : String :=
  String.mk (s.data.dropWhile (· = '/'))

/-- Python `s.startswith("/")`: the first character is a slash. -/
def startsWithSlash (s : String) : Bool :=
  decide (s.data.take 1 = ['/'])

/-- Python `s.endswith("/")`: the last character is a slash. -/
def endsWithSlash (s : String) : Bool :=
  decide (s.data.getLast? = some '/')

/-- Python `s[1:]`: drop the first character. -/
def dropFirstChar (s : String) : String :=
  String.mk s.data.tail

/-- Python `str.strip("_")`: drop leading and trailing underscores. -/
def stripUnderscores (s : String) : String :=
  String.mk (((s.data.dropWhile (· = '_')).reverse.dropWhile (· = '_')).reverse)

/-- Decimal digits of `n`, least significant first, structurally recursive
on a fuel argument (any fuel above `n` computes the digits; see
`decValRev_decRevAux`). -/
def decRevAux : Nat → Nat → List Char
  | 0, _ => []
  | fuel + 1, n =>
    if n < 10 then [Char.ofNat (48 + n)]
    else Char.ofNat (48 + n % 10) :: decRevAux fuel (n / 10)

/-- Decimal digits of `n`, least significant first. -/
def decRev (n : Nat) : List Char :=
  decRevAux (n + 1) n

/-- Decimal rendering of a natural number; the embedding of Python
`"%d" % n` for the non-negative integers the code formats. -/
def natDec (n : Nat) : String :=
  String.mk (decRev n).reverse

/-- Python `repr` for the embedded values (approximate for the escaping of
exotic characters inside strings, which no claim depends on). -/
def pyRepr : PyVal → String
  | .none => "None"
  | .bool true => "True"
  | .bool false => "False"
  | .int n => if n < 0 then "-" ++ natDec n.natAbs else natDec n.natAbs
  | .str s => "\x27" ++ s ++ "\x27"
  | .list xs => "[" ++ String.intercalate ", " (xs.attach.map fun x => pyRepr x.1) ++ "]"
  | .tuple xs => "(" ++ String.intercalate ", " (xs.attach.map fun x => pyRepr x.1) ++ ")"
  | .set xs =>
      if xs.isEmpty then "set()"
      else "\x7b" ++ String.intercalate ", " (xs.attach.map fun x => pyRepr x.1) ++ "\x7d"
  | .dict kvs =>
      "\x7b" ++ String.intercalate ", "
        (kvs.attach.map fun kv => "\x27" ++ kv.1.1 ++ "\x27: " ++ pyRepr kv.1.2) ++ "\x7d"
decreasing_by
  all_goals first
    | (have hx := List.sizeOf_lt_of_mem x.2
       simp only [PyVal.list.sizeOf_spec, PyVal.tuple.sizeOf_spec, PyVal.set.sizeOf_spec]
       omega)
    | (obtain ⟨⟨k, v⟩, hkv⟩ := kv
       have hkv2 := List.sizeOf_lt_of_mem hkv
       simp only [PyVal.dict.sizeOf_spec, Prod.mk.sizeOf_spec] at hkv2 ⊢
       omega)

/-- Python `str(v)`. -/
def pyStr : PyVal → String
  | .none => "None"
  | .bool true => "True"
  | .bool false => "False"
  | .int n => if n < 0 then "-" ++ natDec n.natAbs else natDec n.natAbs
  | .str s => s
  | v => pyRepr v

/-- Python `a or b` (value-returning disjunction). -/
def pyOr (a b : PyVal) : PyVal :=
  if a.isTruthy then a else b

/-- A Python dictionary record: association list, first binding wins
(actual Python dicts have unique keys). -/
abbrev Entry := List (String × PyVal)

/-- Python `entry.get(k)`: the bound value, or `None` when absent. -/
def pyGet (e : Entry) (k : String) : PyVal :=
  match e.find? (fun kv => kv.1 = k) with
  | some kv => kv.2
  | Option.none => PyVal.none

/-- `(v or "")` followed by a string method call (`.strip()` / `.lower()`):
returns the string, or the `AttributeError` Python raises when the value is
truthy but not a string. -/
def pyCoalesceStr (v : PyVal) : Except String String :=
  if v.isTruthy then
    match v with
    | .str s => .ok s
    | _ => .error "AttributeError"
  else .ok ""

/-! ### posixpath (lexical POSIX path functions used by `_abs_link_src`) -/

/-- Python `s.split("/")` on the character list: chunks between slashes,
empty chunks kept. -/
def splitSlash : List Char → List (List Char)
  | [] => [[]]
  | c :: cs =>
    if c = '/' then [] :: splitSlash cs
    else
      match splitSlash cs with
      | [] => [[c]]
      | h :: t => (c :: h) :: t

/-- The number of initial slashes `posixpath.normpath` preserves
(mirroring its `startswith` tests): POSIX keeps exactly two leading
slashes special; one, or three and more, collapse to one. -/
def initSlashes (cs : List Char) : Nat :=
  if cs.take 1 = ['/'] then
    if cs.take 2 = ['/', '/'] ∧ ¬ cs.take 3 = ['/', '/', '/'] then 2 else 1
  else 0

/-- One step of `posixpath.normpath`'s component scan: skip empty and `.`
components, pop a component on `..` (unless at an unrooted start or on top
of another `..`, which are kept). -/
def normStep (isl : Nat) (acc : List (List Char)) (comp : List Char) : List (List Char) :=
  if comp = [] ∨ comp = ['.'] then acc
  else if comp ≠ ['.', '.'] ∨ (isl = 0 ∧ acc = []) ∨ (acc ≠ [] ∧ acc.getLast? = some ['.', '.']) then
    acc ++ [comp]
  else acc.dropLast

/-- The character list `posixpath.normpath` produces for a non-empty
input: the preserved initial slashes followed by the surviving components
joined with `/`. -/
def normCore (cs : List Char) : List Char :=
  List.replicate (initSlashes cs) '/' ++
    List.intercalate ['/'] ((splitSlash cs).foldl (normStep (initSlashes cs)) [])

/-- `posixpath.normpath`: purely lexical normalization (collapse `.`,
`..` and redundant separators); empty results become `"."`. -/
def posixNormpath (p : String) : String :=
  if p = "" then "." else
  if normCore p.data = [] then "." else String.mk (normCore p.data)

/-- `posixpath.dirname`: everything up to and including the last slash,
then (unless the result is all slashes) trailing slashes removed. -/
def posixDirname (p : String) : String :=
  let head := (p.data.reverse.dropWhile (fun c => c ≠ '/')).reverse
  if head.isEmpty || head.all (· = '/') then String.mk head
  else String.mk ((head.reverse.dropWhile (· = '/')).reverse)

/-- `posixpath.join` with two arguments. -/
def posixJoin (a b : String) : String :=
  if startsWithSlash b then b
  else if a = "" ∨ endsWithSlash a then a ++ b
  else a ++ "/" ++ b

/-! ### Grouping logic (`src/__main__.py`) -/

def _CATEGORY_ORDER : List String :=
  ["configuration", "artifacts", "docs", "licenses", "general"]

/-- The flag set `_category_for` derives: `entry.get("flags") or []`, then
each element of a list/tuple is passed through `str(x).lower()`; any other
value yields the empty set.  (Membership, the only use, is preserved by
modelling the Python set as the list of its elements.) -/
def entryFlagSet (entry : Entry) : List String :=
  match pyOr (pyGet entry "flags") (.list []) with
  | .list xs => xs.map (fun x => pyLower (pyStr x))
  | .tuple xs => xs.map (fun x => pyLower (pyStr x))
  | _ => []

/-- `entry.get("type")` viewed as `str(... or "").lower()`. -/
def entryTypeLower (entry : Entry) : String :=
  pyLower (pyStr (pyOr (pyGet entry "type") (.str "")))

/-- `_category_for`: map an rpm file entry to one of the categories. -/
def _category_for (entry : Entry) : String :=
  let fset := entryFlagSet entry
  if "config" ∈ fset then "configuration"
  else if "license" ∈ fset then "licenses"
  else if "doc" ∈ fset then "docs"
  else if entryTypeLower entry = "link" then "general"
  else "artifacts"

/-- The character transformation inside `_sanitize_key`: lowercase ASCII
letters and digits pass through; every other character collapses into a
single `_` (consecutive separator-producing characters merge). -/
def sanitizeChars : List Char → Bool → List Char
  | [], _ => []
  | c :: cs, prevU =>
    if ('a' ≤ c ∧ c ≤ 'z') ∨ ('0' ≤ c ∧ c ≤ '9') then c :: sanitizeChars cs false
    else if prevU then sanitizeChars cs prevU
    else '_' :: sanitizeChars cs true

/-- The collision-free base key `_sanitize_key` derives from a path
string: strip, drop one leading `/`, lowercase, collapse non-alphanumerics
to `_`, trim `_`, fall back to `"root"` when empty. -/
def rawKey (path : String) : String :=
  let s := pyStrip path
  let s := if startsWithSlash s then dropFirstChar s else s
  let s := pyLower s
  let key := stripUnderscores (String.mk (sanitizeChars s.data false))
  if key = "" then "root" else key

/-- The suffix candidate `"%s_%d" % (key, i)`. -/
def suffixCand (key : String) (i : Nat) : String :=
  key ++ "_" ++ natDec i

/-- The `while True` suffix search of `_sanitize_key`, embedded with a
fuel bound; `suffixSearch_eq_of_min` below shows the fuel
`used.length + 1` the callers pass always suffices, so the fuel-exhausted
branch is unreachable. -/
def suffixSearch (key : String) (used : List String) : Nat → Nat → String × List String
  | i, 0 => (suffixCand key i, used ++ [suffixCand key i])
  | i, fuel + 1 =>
    let cand := suffixCand key i
    if cand ∈ used then suffixSearch key used (i + 1) fuel
    else (cand, used ++ [cand])

/-- `_sanitize_key`: turn a filesystem path into a safe unique YAML key,
returning the key together with the updated `used` set (the Python code
mutates the set in place).  `(path or "").strip()` raises when `path` is
truthy but not a string; this is the `.error` case. -/
def _sanitize_key (path : PyVal) (used : List String) : Except String (String × List String) :=
  match pyCoalesceStr path with
  | .error e => .error e
  | .ok s =>
    let key := rawKey s
    if key ∈ used then .ok (suffixSearch key used 2 (used.length + 1))
    else .ok (key, used ++ [key])

/-- `_state_from_type`: normalize rpm type to Ansible state;
`(ftype or "").lower()` raises on a truthy non-string. -/
def _state_from_type (ftype : PyVal) : Except String String :=
  match pyCoalesceStr ftype with
  | .error e => .error e
  | .ok s =>
    let t := pyLower s
    .ok (if t = "dir" ∨ t = "directory" then "directory"
         else if t = "link" ∨ t = "symlink" then "link"
         else "file")

/-- `x or "/"` on strings: the fallback the link resolver applies to the
link path and to its directory portion. -/
def orSlash (s : String) : String :=
  if s = "" then "/" else s

/-- Force a leading slash: `if not base_dir.startswith("/"): base_dir =
"/" + base_dir.lstrip("/")`. -/
def forceSlash (d : String) : String :=
  if startsWithSlash d then d else "/" ++ lstripSlashes d

/-- The base directory `_abs_link_src` resolves relative targets against:
`posixpath.dirname(str(link_path) or "/") or "/"`, forced to begin
with `/`. -/
def linkBaseDir (link_path : PyVal) : String :=
  forceSlash (orSlash (posixDirname (orSlash (pyStr link_path))))

/-- `_abs_link_src`: convert an RPM link target into an absolute POSIX
path, purely lexically. -/
def _abs_link_src (linkto link_path : PyVal) : Option String :=
  if ¬ linkto.isTruthy then Option.none
  else
    let lt := pyStrip (pyStr linkto)
    if startsWithSlash lt then some (posixNormpath lt)
    else some (posixNormpath (posixJoin (linkBaseDir link_path) lt))

/-- A ConfigItem: the ordered property dictionary `_build_item` builds. -/
abbrev Item := List (String × PyVal)

/-- `_build_item`: build the ordered vars dict for a single
file/link/dir entry. -/
def _build_item (entry : Entry) : Except String Item :=
  let path_val := pyOr (pyGet entry "path") (.str "")
  let group := pyOr (pyGet entry "group") (.str "root")
  let mode := pyGet entry "mode"
  -- `str(mode) if mode is not None else ""`
  let modeStr : PyVal :=
    match mode with
    | PyVal.none => .str ""
    | m => .str (pyStr m)
  let owner := pyOr (pyGet entry "owner") (.str "root")
  match _state_from_type (pyGet entry "type") with
  | .error e => .error e
  | .ok state =>
    let base : Item :=
      [("follow", .bool false), ("force", .bool true), ("group", group),
       ("mode", modeStr), ("owner", owner), ("path", path_val), ("state", .str state)]
    if state = "link" then
      match _abs_link_src (pyGet entry "linkto") path_val with
      | some srcAbs =>
          -- `if src_abs:` — truthiness of the optional string
          if srcAbs ≠ "" then .ok (base ++ [("src", .str srcAbs)]) else .ok base
      | Option.none => .ok base
    else .ok base

/-! ### Merger/deduplicator (`_merge_files_from_packages`) -/

/-- One iteration of the merge loop over a file value `f`: skip records
with falsy paths, skip paths already seen, otherwise keep.  `f.get`
raises on a non-dict, `p in seen` raises on an unhashable path. -/
def mergeStep (st : List PyVal × List Entry) (f : PyVal) :
    Except String (List PyVal × List Entry) :=
  match f with
  | .dict kvs =>
    let p := pyGet kvs "path"
    if ¬ p.isTruthy then .ok st
    else if ¬ p.hashable then .error "TypeError: unhashable"
    else if st.1.any (fun q => PyVal.beq q p) then .ok st
    else .ok (st.1 ++ [p], st.2 ++ [kvs])
  | _ => .error "AttributeError: get"

/-- One iteration over a package object: `for f in (pkg.get("files") or [])`;
a truthy non-iterable `files` value raises. -/
def mergePkg (st : List PyVal × List Entry) (pkg : Entry) :
    Except String (List PyVal × List Entry) :=
  match pyOr (pyGet pkg "files") (.list []) with
  | .list fs => fs.foldlM mergeStep st
  | .tuple fs => fs.foldlM mergeStep st
  | _ => .error "TypeError: not iterable"

/-- `_merge_files_from_packages`: flatten and de-duplicate files across
package objects by path, first occurrence wins. -/
def _merge_files_from_packages (pkg_objs : List Entry) : Except String (List Entry) :=
  (pkg_objs.foldlM mergePkg ([], [])).map (·.2)

/-! ### Document assembly (`_build_yaml_data`) -/

/-- The per-category ordered mapping from sanitized key to item. -/
abbrev Grouped := List (String × List (String × Item))

/-- `OrderedDict` assignment `od[k] = v`: overwrite in place when the key
exists, else append. -/
def odSet (od : List (String × Item)) (k : String) (v : Item) : List (String × Item) :=
  if od.any (fun p => p.1 = k) then od.map (fun p => if p.1 = k then (k, v) else p)
  else od ++ [(k, v)]

/-- `grouped[cat][key] = item` on the category table. -/
def groupedInsert (g : Grouped) (cat key : String) (item : Item) : Grouped :=
  g.map (fun p => if p.1 = cat then (p.1, odSet p.2 key item) else p)

/-- One record of the `_build_yaml_data` loop: classify, derive the key
(mutating `used_keys`), build the item and insert it. -/
def buildStep (st : List String × Grouped) (f : Entry) :
    Except String (List String × Grouped) :=
  let cat := _category_for f
  match _sanitize_key (pyOr (pyGet f "path") (.str "")) st.1 with
  | .error e => .error e
  | .ok (key, used) =>
    match _build_item f with
    | .error e => .error e
    | .ok item => .ok (used, groupedInsert st.2 cat key item)

/-- `_build_yaml_data`: assemble the final ordered document
`[("files", categories)]` for YAML emission. -/
def _build_yaml_data (files : List Entry) : Except String (List (String × Grouped)) :=
  (files.foldlM buildStep ([], _CATEGORY_ORDER.map (fun k => (k, [])))).map
    (fun st => [("files", st.2)])

/-- All sanitized keys of a grouped table, in category-then-insertion
order. -/
def docKeys (g : Grouped) : List String :=
  (g.map (fun p => p.2.map Prod.fst)).flatten

/-! ### Fallback YAML emitter (`_yaml_dump`, library-absent path) -/

/-- The fixed property order of the fallback emitter. -/
def _PROP_ORDER : List String :=
  ["follow", "force", "group", "mode", "owner", "path", "state", "src"]

/-- Python `s.replace("\x27", "\x27\x27")`: double every single quote. -/
def doubleQuotes (s : String) : String :=
  String.mk (s.data.map (fun c => if c = Char.ofNat 39 then [c, c] else [c])).flatten

/-- The scalar quoting function `q` of `_yaml_dump`: booleans as bare
`true`/`false`, `None` as an empty quoted string, anything else
single-quoted with embedded single quotes doubled. -/
def qScalar (v : PyVal) : String :=
  match v with
  | .bool b => if b then "true" else "false"
  | PyVal.none => "\x27\x27"
  | v => "\x27" ++ doubleQuotes (pyStr v) ++ "\x27"

/-- Python `v in (None, "")`, the emptiness test of the emitter. -/
def isNoneOrEmptyStr (v : PyVal) : Bool :=
  match v with
  | PyVal.none => true
  | .str "" => true
  | _ => false

/-- Dictionary lookup `props[prop_key]` guarded by `prop_key in props`. -/
def odGet (props : Item) (k : String) : Option PyVal :=
  match props.find? (fun kv => kv.1 = k) with
  | some kv => some kv.2
  | Option.none => Option.none

/-- The per-property lines of one item, as the emitter's inner loop
produces them: the main branch emits a present property whose value is
not `None`/`""`; the redundant `elif` re-emits `follow`/`force` (their
boolean values never equal `None` or `""`, so in fact the first branch
already covers them). -/
def propLines (props : Item) : List String :=
  _PROP_ORDER.foldl (fun acc pk =>
    match odGet props pk with
    | some v =>
        if ¬ isNoneOrEmptyStr v then acc ++ ["      " ++ pk ++ ": " ++ qScalar v]
        else if pk = "follow" ∨ pk = "force" then acc ++ ["      " ++ pk ++ ": " ++ qScalar v]
        else acc
    | Option.none => acc) []

/-- The lines written by the fallback emitter (the final file is these
lines joined with newlines, plus a trailing newline; the write itself is
I/O and not modelled). -/
def _yaml_dump_lines (data : List (String × Grouped)) : List String :=
  let files : Grouped :=
    match data.find? (fun kv => kv.1 = "files") with
    | some kv => kv.2
    | Option.none => []
  _CATEGORY_ORDER.foldl (fun acc cat =>
    let items : List (String × Item) :=
      match files.find? (fun kv => kv.1 = cat) with
      | some kv => kv.2
      | Option.none => []
    let acc := acc ++ ["  " ++ cat ++ ":"]
    if items.isEmpty then acc
    else items.foldl (fun acc2 kp => (acc2 ++ ["    " ++ kp.1 ++ ":"]) ++ propLines kp.2) acc)
    ["files:"]

/-! ### Spec-side definitions, written from the spec's words, for the
refinement claims about merging (C6) and the fallback emitter (C7). -/

/-- The path strings of the records kept so far. -/
def prevPathStrings (out : List Entry) : List String :=
  out.filterMap (fun e =>
    match pyGet e "path" with
    | .str t => some t
    | _ => Option.none)

/-- One step of the merge as the spec words it: a record is kept only if
its path is non-empty and not equal (exact string equality) to the path
of any previously kept record. -/
def specKeep (out : List Entry) (f : PyVal) : List Entry :=
  match f with
  | .dict kvs =>
    match pyGet kvs "path" with
    | .str s => if s ≠ "" ∧ s ∉ prevPathStrings out then out ++ [kvs] else out
    | _ => out
  | _ => out

/-- The merge contract as the spec words it: process records in input
order, keep first occurrences of non-empty paths, output in first-seen
order. -/
def mergeSpecSide (records : List PyVal) : List Entry :=
  records.foldl specKeep []

/-- Per-property emission as the spec words it: emit when the property is
present and its value is not `null`/empty-string, or when the property is
`follow`/`force` (always emitted, including when false); scalars quoted
by the same three rules. -/
def propLinesSpec (props : Item) : List String :=
  _PROP_ORDER.foldl (fun acc pk =>
    match odGet props pk with
    | some v =>
        if ¬ isNoneOrEmptyStr v ∨ pk = "follow" ∨ pk = "force" then
          acc ++ ["      " ++ pk ++ ": " ++ qScalar v]
        else acc
    | Option.none => acc) []

/-- The fallback emission as the spec words it: root `files:` line, one
line per category in fixed order (all five, childless when empty), one
line per item key, then the item's property lines. -/
def yamlDumpSpecLines (data : List (String × Grouped)) : List String :=
  let files : Grouped :=
    match data.find? (fun kv => kv.1 = "files") with
    | some kv => kv.2
    | Option.none => []
  _CATEGORY_ORDER.foldl (fun acc cat =>
    let items : List (String × Item) :=
      match files.find? (fun kv => kv.1 = cat) with
      | some kv => kv.2
      | Option.none => []
    let acc := acc ++ ["  " ++ cat ++ ":"]
    if items.isEmpty then acc
    else items.foldl (fun acc2 kp => (acc2 ++ ["    " ++ kp.1 ++ ":"]) ++ propLinesSpec kp.2) acc)
    ["files:"]

/-! ### Well-formedness of package objects for the merge claim -/

/-- A path value that Python's merge treats without raising and the spec
describes: absent (`None`) or a string. -/
def pathOk : PyVal → Bool
  | PyVal.none => true
  | .str _ => true
  | _ => false

/-- A file value the merge can process: a record dictionary whose path
is absent or a string. -/
def goodFile (f : PyVal) : Bool :=
  match f with
  | .dict kvs => pathOk (pyGet kvs "path")
  | _ => false

/-- The iterable file list of a package object, when it is one. -/
def pkgFilesList (pkg : Entry) : Option (List PyVal) :=
  match pyOr (pyGet pkg "files") (.list []) with
  | .list fs => some fs
  | .tuple fs => some fs
  | _ => Option.none

/-- A well-formed package object: iterable `files`, each a record
dictionary whose path is absent or a string. -/
def goodPkg (pkg : Entry) : Bool :=
  match pkgFilesList pkg with
  | some fs => fs.all goodFile
  | Option.none => false

/-- The flattened sequence of file values of a package list, in input
order. -/
def allFiles (pkgs : List Entry) : List PyVal :=
  (pkgs.map (fun p => (pkgFilesList p).getD [])).flatten

/-! ### Key-generation lemmas -/

/-- Value of a little-endian decimal digit list. -/
def decValRev : List Char → Nat
  | [] => 0
  | c :: cs => (c.toNat - 48) + 10 * decValRev cs

theorem char_ofNat_digit_toNat : ∀ n, n < 10 → (Char.ofNat (48 + n)).toNat = 48 + n := by
  decide

theorem decValRev_decRevAux : ∀ fuel n, n < fuel → decValRev (decRevAux fuel n) = n := by
  intro fuel
  induction fuel with
  | zero => intro n h; omega
  | succ f ih =>
    intro n h
    by_cases h10 : n < 10
    · simp only [decRevAux, if_pos h10, decValRev, char_ofNat_digit_toNat n h10]
      omega
    · have hdiv : n / 10 < f := by
        have : n / 10 < n := Nat.div_lt_self (by omega) (by omega)
        omega
      simp only [decRevAux, if_neg h10, decValRev, ih _ hdiv,
        char_ofNat_digit_toNat (n % 10) (Nat.mod_lt _ (by omega))]
      omega

theorem decValRev_decRev (n : Nat) : decValRev (decRev n) = n :=
  decValRev_decRevAux (n + 1) n (Nat.lt_succ_self n)

theorem natDec_injective : Function.Injective natDec := by
  intro a b h
  have hdata : (decRev a).reverse = (decRev b).reverse := congrArg String.data h
  have : decRev a = decRev b := by
    have := congrArg List.reverse hdata
    simpa using this
  calc a = decValRev (decRev a) := (decValRev_decRev a).symm
    _ = decValRev (decRev b) := by rw [this]
    _ = b := decValRev_decRev b

theorem suffixCand_injective (key : String) : Function.Injective (suffixCand key) := by
  intro a b h
  apply natDec_injective
  apply String.ext
  have hdata : (key ++ "_").data ++ (natDec a).data = (key ++ "_").data ++ (natDec b).data := by
    have : ((key ++ "_") ++ natDec a).data = ((key ++ "_") ++ natDec b).data := by
      simpa [suffixCand, String.append_assoc] using congrArg String.data h
    simpa using this
  exact List.append_cancel_left hdata

/-- Pigeonhole: some suffix candidate with index in `[i, i + used.length]`
is not in `used`. -/
theorem exists_free_suffix (key : String) (used : List String) (i : Nat) :
    ∃ j, j ≤ used.length ∧ suffixCand key (i + j) ∉ used := by
  by_contra hcon
  push_neg at hcon
  have hall : ∀ j, j ≤ used.length → suffixCand key (i + j) ∈ used := fun j hj =>
    hcon j hj
  set l : List String := (List.range (used.length + 1)).map (fun j => suffixCand key (i + j))
    with hl
  have hnodup : l.Nodup := by
    refine List.Nodup.map ?_ (List.nodup_range _)
    intro a b hab
    have := suffixCand_injective key hab
    omega
  have hsub : l ⊆ used := by
    intro x hx
    rw [hl, List.mem_map] at hx
    obtain ⟨j, hj, rfl⟩ := hx
    exact hall j (by simpa [Nat.lt_succ_iff] using List.mem_range.mp hj)
  have hlen : l.length = used.length + 1 := by simp [hl]
  have hcard : l.toFinset.card ≤ used.toFinset.card :=
    Finset.card_le_card (fun x hx => List.mem_toFinset.mpr (hsub (List.mem_toFinset.mp hx)))
  rw [List.toFinset_card_of_nodup hnodup, hlen] at hcard
  have := List.toFinset_card_le used
  omega

/-- When some candidate within the fuel is free, the suffix search stops
at a candidate that is not in `used`, and appends it. -/
theorem suffixSearch_not_mem (key : String) (used : List String) :
    ∀ fuel i, (∃ j, j < fuel ∧ suffixCand key (i + j) ∉ used) →
      (suffixSearch key used i fuel).1 ∉ used ∧
      (suffixSearch key used i fuel).2 = used ++ [(suffixSearch key used i fuel).1] := by
  intro fuel
  induction fuel with
  | zero => intro i ⟨j, hj, _⟩; omega
  | succ f ih =>
    intro i ⟨j, hj, hfree⟩
    by_cases hmem : suffixCand key i ∈ used
    · have hj0 : j ≠ 0 := by rintro rfl; simp at hfree; exact hfree hmem
      have hshift : i + 1 + (j - 1) = i + j := by omega
      have hfree2 : suffixCand key (i + 1 + (j - 1)) ∉ used := by rw [hshift]; exact hfree
      have hex : ∃ j2, j2 < f ∧ suffixCand key (i + 1 + j2) ∉ used := ⟨j - 1, by omega, hfree2⟩
      simpa [suffixSearch, hmem] using ih (i + 1) hex
    · simp [suffixSearch, hmem]

/-- The suffix search returns the candidate with the least index at or
above the start index that is free, provided the fuel reaches it. -/
theorem suffixSearch_eq_of_min (key : String) (used : List String) (n : Nat) :
    ∀ fuel i, i ≤ n → n - i < fuel → suffixCand key n ∉ used →
      (∀ m, i ≤ m → m < n → suffixCand key m ∈ used) →
      suffixSearch key used i fuel = (suffixCand key n, used ++ [suffixCand key n]) := by
  intro fuel
  induction fuel with
  | zero => intro i h1 h2 _ _; omega
  | succ f ih =>
    intro i h1 h2 hfree hbelow
    rcases Nat.eq_or_lt_of_le h1 with rfl | hlt
    · simp [suffixSearch, hfree]
    · have hmem : suffixCand key i ∈ used := hbelow i le_rfl hlt
      simp only [suffixSearch, if_pos hmem]
      exact ih (i + 1) hlt (by omega) hfree (fun m hm hmn => hbelow m (by omega) hmn)

theorem pyCoalesceStr_str (s : String) : pyCoalesceStr (.str s) = .ok s := by
  by_cases h : s = ""
  · subst h; simp [pyCoalesceStr, PyVal.isTruthy]
  · simp [pyCoalesceStr, PyVal.isTruthy, h]

/-- Pigeonhole: if every suffix candidate with index in `[i, n)` is in
`used`, there are at most `used.length` of them. -/
theorem suffix_range_le_length (key : String) (used : List String) (n i : Nat)
    (h : ∀ m, i ≤ m → m < n → suffixCand key m ∈ used) : n - i ≤ used.length := by
  set l : List String := (List.range (n - i)).map (fun j => suffixCand key (i + j)) with hl
  have hnodup : l.Nodup := by
    refine List.Nodup.map ?_ (List.nodup_range _)
    intro a b hab
    have := suffixCand_injective key hab
    omega
  have hsub : l ⊆ used := by
    intro x hx
    rw [hl, List.mem_map] at hx
    obtain ⟨j, hj, rfl⟩ := hx
    have hj2 := List.mem_range.mp hj
    exact h (i + j) (by omega) (by omega)
  have hcard : l.toFinset.card ≤ used.toFinset.card :=
    Finset.card_le_card (fun x hx => List.mem_toFinset.mpr (hsub (List.mem_toFinset.mp hx)))
  rw [List.toFinset_card_of_nodup hnodup] at hcard
  have h1 : l.length = n - i := by simp [hl]
  have h2 := List.toFinset_card_le used
  omega

/-- A successful `_sanitize_key` returns a key that was not in `used` and
appends exactly that key to `used`. -/
theorem _sanitize_key_ok (p : PyVal) (used : List String) (k : String) (u : List String)
    (h : _sanitize_key p used = .ok (k, u)) : k ∉ used ∧ u = used ++ [k] := by
  unfold _sanitize_key at h
  cases hc : pyCoalesceStr p with
  | error e => rw [hc] at h; exact absurd h (by simp)
  | ok s =>
    rw [hc] at h
    simp only at h
    by_cases hmem : rawKey s ∈ used
    · rw [if_pos hmem] at h
      obtain ⟨j, hj, hfree⟩ := exists_free_suffix (rawKey s) used 2
      have hspec := suffixSearch_not_mem (rawKey s) used (used.length + 1) 2
        ⟨j, by omega, hfree⟩
      have hres : (suffixSearch (rawKey s) used 2 (used.length + 1)) = (k, u) := by
        injection h with h2
      rw [hres] at hspec
      exact hspec
    · rw [if_neg hmem] at h
      injection h with h2
      have hk : rawKey s = k := congrArg Prod.fst h2
      have hu : used ++ [rawKey s] = u := congrArg Prod.snd h2
      subst hk
      exact ⟨hmem, hu.symm⟩

/-- On a collision, `_sanitize_key` returns the suffix with the least
unused index `n ≥ 2` and appends it. -/
theorem _sanitize_key_collision (s : String) (used : List String) (n : Nat)
    (h2 : 2 ≤ n) (hmem : rawKey s ∈ used) (hfree : suffixCand (rawKey s) n ∉ used)
    (hmin : ∀ m, 2 ≤ m → m < n → suffixCand (rawKey s) m ∈ used) :
    _sanitize_key (.str s) used =
      .ok (suffixCand (rawKey s) n, used ++ [suffixCand (rawKey s) n]) := by
  have hle : n - 2 ≤ used.length := suffix_range_le_length (rawKey s) used n 2 hmin
  unfold _sanitize_key
  rw [pyCoalesceStr_str]
  simp only [if_pos hmem]
  rw [suffixSearch_eq_of_min (rawKey s) used n (used.length + 1) 2 h2 (by omega) hfree hmin]

/-- Without a collision, `_sanitize_key` returns the base key and
appends it. -/
theorem _sanitize_key_fresh (s : String) (used : List String) (hmem : rawKey s ∉ used) :
    _sanitize_key (.str s) used = .ok (rawKey s, used ++ [rawKey s]) := by
  unfold _sanitize_key
  rw [pyCoalesceStr_str]
  simp [hmem]

/-- The key `_sanitize_key` generates depends only on the membership of
the `used` set, not on any order or representation of it. -/
theorem _sanitize_key_mem_invariant (p : PyVal) (u1 u2 : List String)
    (h : ∀ k, k ∈ u1 ↔ k ∈ u2) :
    (_sanitize_key p u1).map Prod.fst = (_sanitize_key p u2).map Prod.fst := by
  cases hc : pyCoalesceStr p with
  | error e =>
    unfold _sanitize_key
    rw [hc]
  | ok s =>
    have hs1 : _sanitize_key p u1 = _sanitize_key (.str s) u1 := by
      unfold _sanitize_key; rw [hc, pyCoalesceStr_str]
    have hs2 : _sanitize_key p u2 = _sanitize_key (.str s) u2 := by
      unfold _sanitize_key; rw [hc, pyCoalesceStr_str]
    rw [hs1, hs2]
    by_cases hmem : rawKey s ∈ u1
    · have hmem2 : rawKey s ∈ u2 := (h _).mp hmem
      have hex : ∃ j, suffixCand (rawKey s) (2 + j) ∉ u1 := by
        obtain ⟨j, _, hfree⟩ := exists_free_suffix (rawKey s) u1 2
        exact ⟨j, hfree⟩
      classical
      set j0 := Nat.find hex with hj0
      have hfree1 : suffixCand (rawKey s) (2 + j0) ∉ u1 := Nat.find_spec hex
      have hmin1 : ∀ m, 2 ≤ m → m < 2 + j0 → suffixCand (rawKey s) m ∈ u1 := by
        intro m hm hlt
        have hj : m - 2 < j0 := by omega
        have hnot := Nat.find_min hex hj
        simp only [not_not] at hnot
        have hm2 : 2 + (m - 2) = m := by omega
        rw [hm2] at hnot
        exact hnot
      have hfree2 : suffixCand (rawKey s) (2 + j0) ∉ u2 := fun hin => hfree1 ((h _).mpr hin)
      have hmin2 : ∀ m, 2 ≤ m → m < 2 + j0 → suffixCand (rawKey s) m ∈ u2 := fun m hm hlt =>
        (h _).mp (hmin1 m hm hlt)
      rw [_sanitize_key_collision s u1 (2 + j0) (by omega) hmem hfree1 hmin1,
        _sanitize_key_collision s u2 (2 + j0) (by omega) hmem2 hfree2 hmin2]
      rfl
    · have hmem2 : rawKey s ∉ u2 := fun hin => hmem ((h _).mpr hin)
      rw [_sanitize_key_fresh s u1 hmem, _sanitize_key_fresh s u2 hmem2]
      rfl

/-- C3: sanitizing `/etc/Default/useradd!!` with an empty used-keys set
returns `etc_default_useradd`; a second sanitization producing the same
base key returns `etc_default_useradd_2`; an all-punctuation path falls
back to the literal key `root`; in general a fresh base key is returned
as-is, on collision the suffix uses the first unused integer `n ≥ 2`, and
the returned key is inserted into the used-keys set. -/
theorem claim_C3_sanitize :
    (_sanitize_key (.str "/etc/Default/useradd!!") [] =
      .ok ("etc_default_useradd", ["etc_default_useradd"])) ∧
    (_sanitize_key (.str "/etc/Default/useradd!!") ["etc_default_useradd"] =
      .ok ("etc_default_useradd_2", ["etc_default_useradd", "etc_default_useradd_2"])) ∧
    (_sanitize_key (.str "!!!") [] = .ok ("root", ["root"])) ∧
    (∀ s used, rawKey s ∉ used →
      _sanitize_key (.str s) used = .ok (rawKey s, used ++ [rawKey s])) ∧
    (∀ s used n, 2 ≤ n → rawKey s ∈ used → suffixCand (rawKey s) n ∉ used →
      (∀ m, 2 ≤ m → m < n → suffixCand (rawKey s) m ∈ used) →
      _sanitize_key (.str s) used =
        .ok (suffixCand (rawKey s) n, used ++ [suffixCand (rawKey s) n])) := by
  refine ⟨rfl, rfl, rfl, ?_, ?_⟩
  · exact fun s used hmem => _sanitize_key_fresh s used hmem
  · exact fun s used n h2 hmem hfree hmin => _sanitize_key_collision s used n h2 hmem hfree hmin

theorem claim_C3_sanitize_witness :
    _sanitize_key (.str "/x") [] = .ok ("x", ["x"]) ∧
    _sanitize_key (.str "/a") ["a", "b"] = .ok ("a_2", ["a", "b", "a_2"]) := by
  constructor
  · exact claim_C3_sanitize.2.2.2.1 "/x" [] (by decide)
  · exact claim_C3_sanitize.2.2.2.2 "/a" ["a", "b"] 2 (by decide) (by decide) (by decide)
      (by intro m hm hlt; omega)

/-- C1: assembly is deterministic for a fixed ordered input record list —
the whole pipeline is a pure function, so two runs coincide — and the key
generator depends only on membership in the set of previously used keys
(processing order and prior collisions), with no dependence on any
hash-induced ordering of that set. -/
theorem claim_C1_determinism :
    (∀ files : List Entry, _build_yaml_data files = _build_yaml_data files) ∧
    (∀ pkgs : List Entry, _merge_files_from_packages pkgs = _merge_files_from_packages pkgs) ∧
    (∀ p u1 u2, (∀ k, k ∈ u1 ↔ k ∈ u2) →
      (_sanitize_key p u1).map Prod.fst = (_sanitize_key p u2).map Prod.fst) :=
  ⟨fun _ => rfl, fun _ => rfl, fun p u1 u2 h => _sanitize_key_mem_invariant p u1 u2 h⟩

theorem claim_C1_determinism_witness :
    (_sanitize_key (.str "/a") ["a", "b"]).map Prod.fst =
      (_sanitize_key (.str "/a") ["b", "a", "a"]).map Prod.fst :=
  claim_C1_determinism.2.2 (.str "/a") ["a", "b"] ["b", "a", "a"]
    (by intro k; constructor <;> (intro hk; simp at hk ⊢; tauto))

/-! ### Document-structure invariants (C2) -/

theorem odSet_fresh (od : List (String × Item)) (k : String) (v : Item)
    (h : ∀ x ∈ od.map Prod.fst, x ≠ k) : odSet od k v = od ++ [(k, v)] := by
  unfold odSet
  have hany : od.any (fun p => p.1 = k) = false := by
    rw [List.any_eq_false]
    intro p hp
    simpa using h p.1 (List.mem_map.mpr ⟨p, hp, rfl⟩)
  rw [hany]
  simp

theorem odSet_keys_subset (od : List (String × Item)) (k : String) (v : Item) :
    ∀ x ∈ (odSet od k v).map Prod.fst, x ∈ od.map Prod.fst ∨ x = k := by
  intro x hx
  unfold odSet at hx
  by_cases hany : od.any (fun p => p.1 = k)
  · rw [if_pos hany] at hx
    rw [List.map_map, List.mem_map] at hx
    obtain ⟨p, hp, rfl⟩ := hx
    by_cases hpk : p.1 = k
    · right; simp [hpk]
    · left; simp only [Function.comp_apply, if_neg hpk]
      exact List.mem_map.mpr ⟨p, hp, rfl⟩
  · rw [if_neg hany] at hx
    rw [List.map_append, List.mem_append] at hx
    rcases hx with hx | hx
    · exact Or.inl hx
    · right; simpa using hx

theorem groupedInsert_fst (g : Grouped) (cat k : String) (item : Item) :
    (groupedInsert g cat k item).map Prod.fst = g.map Prod.fst := by
  unfold groupedInsert
  rw [List.map_map]
  refine List.map_congr_left ?_
  intro p _
  by_cases hp : p.1 = cat <;> simp [hp]

theorem groupedInsert_absent (g : Grouped) (cat k : String) (item : Item)
    (h : cat ∉ g.map Prod.fst) : groupedInsert g cat k item = g := by
  unfold groupedInsert
  conv_rhs => rw [← List.map_id g]
  refine List.map_congr_left ?_
  intro p hp
  have : p.1 ≠ cat := fun hc => h (List.mem_map.mpr ⟨p, hp, hc⟩)
  simp [this]

theorem docKeys_groupedInsert_subset (g : Grouped) (cat k : String) (item : Item) :
    ∀ x ∈ docKeys (groupedInsert g cat k item), x ∈ docKeys g ∨ x = k := by
  intro x hx
  unfold docKeys at hx ⊢
  unfold groupedInsert at hx
  rw [List.map_map, List.mem_flatten] at hx
  obtain ⟨l, hl, hxl⟩ := hx
  rw [List.mem_map] at hl
  obtain ⟨p, hp, rfl⟩ := hl
  by_cases hpc : p.1 = cat
  · simp only [Function.comp_apply, if_pos hpc] at hxl
    rcases odSet_keys_subset p.2 k item x hxl with hin | hk
    · exact Or.inl (List.mem_flatten.mpr ⟨p.2.map Prod.fst, List.mem_map.mpr ⟨p, hp, rfl⟩, hin⟩)
    · exact Or.inr hk
  · simp only [Function.comp_apply, if_neg hpc] at hxl
    exact Or.inl (List.mem_flatten.mpr ⟨p.2.map Prod.fst, List.mem_map.mpr ⟨p, hp, rfl⟩, hxl⟩)

theorem docKeys_cons (p : String × List (String × Item)) (g : Grouped) :
    docKeys (p :: g) = p.2.map Prod.fst ++ docKeys g := by
  simp [docKeys]

theorem docKeys_groupedInsert_nodup (g : Grouped) (cat k : String) (item : Item)
    (hcats : (g.map Prod.fst).Nodup) (hkeys : (docKeys g).Nodup) (hfresh : k ∉ docKeys g) :
    (docKeys (groupedInsert g cat k item)).Nodup := by
  induction g with
  | nil => simp [docKeys, groupedInsert]
  | cons p g ih =>
    rw [docKeys_cons] at hkeys hfresh
    rw [List.map_cons, List.nodup_cons] at hcats
    rw [List.nodup_append] at hkeys
    obtain ⟨hk1, hk2, hdisj⟩ := hkeys
    have hfresh1 : k ∉ p.2.map Prod.fst := fun h => hfresh (List.mem_append.mpr (Or.inl h))
    have hfresh2 : k ∉ docKeys g := fun h => hfresh (List.mem_append.mpr (Or.inr h))
    show (docKeys ((if p.1 = cat then (p.1, odSet p.2 k item) else p) :: groupedInsert g cat k item)).Nodup
    by_cases hpc : p.1 = cat
    · rw [if_pos hpc]
      have hgabs : cat ∉ g.map Prod.fst := hpc ▸ hcats.1
      rw [groupedInsert_absent g cat k item hgabs, docKeys_cons]
      simp only
      rw [odSet_fresh p.2 k item (fun x hx hxk => hfresh1 (hxk ▸ hx))]
      rw [List.map_append, List.nodup_append]
      refine ⟨?_, hk2, ?_⟩
      · rw [List.nodup_append]
        refine ⟨hk1, List.nodup_singleton k, fun x hx hxk => ?_⟩
        simp only [List.map_cons, List.map_nil, List.mem_singleton] at hxk
        exact hfresh1 (hxk ▸ hx)
      · intro x hx hxg
        rcases List.mem_append.mp hx with hx | hx
        · exact hdisj hx hxg
        · simp only [List.map_cons, List.map_nil, List.mem_singleton] at hx
          exact hfresh2 (hx ▸ hxg)
    · rw [if_neg hpc, docKeys_cons]
      rw [List.nodup_append]
      refine ⟨hk1, ih hcats.2 hk2 hfresh2, ?_⟩
      intro x hx hxg
      rcases docKeys_groupedInsert_subset g cat k item x hxg with hin | rfl
      · exact hdisj hx hin
      · exact hfresh1 hx

/-- The invariant the assembly fold maintains: every key in the document
is in `used_keys`, keys are globally duplicate-free, and the category
table is exactly the five fixed categories in order. -/
def AssemblyInv (used : List String) (g : Grouped) : Prop :=
  (∀ x ∈ docKeys g, x ∈ used) ∧ (docKeys g).Nodup ∧ g.map Prod.fst = _CATEGORY_ORDER

theorem buildStep_inv (used : List String) (g : Grouped) (f : Entry)
    (hinv : AssemblyInv used g) (st : List String × Grouped)
    (h : buildStep (used, g) f = .ok st) : AssemblyInv st.1 st.2 := by
  unfold buildStep at h
  cases hs : _sanitize_key (pyOr (pyGet f "path") (.str "")) used with
  | error e => rw [hs] at h; exact absurd h (by simp)
  | ok kv =>
    rw [hs] at h
    obtain ⟨key, u1⟩ := kv
    obtain ⟨hkfresh, hu1⟩ := _sanitize_key_ok _ used key u1 hs
    cases hb : _build_item f with
    | error e => rw [hb] at h; exact absurd h (by simp)
    | ok item =>
      rw [hb] at h
      simp only at h
      injection h with h1
      subst h1
      obtain ⟨hsub, hnd, hfst⟩ := hinv
      subst hu1
      refine ⟨?_, ?_, ?_⟩
      · intro x hx
        rcases docKeys_groupedInsert_subset g (_category_for f) key item x hx with hin | rfl
        · exact List.mem_append.mpr (Or.inl (hsub x hin))
        · simp
      · refine docKeys_groupedInsert_nodup g _ key item ?_ hnd ?_
        · rw [hfst]; decide
        · exact fun hk => hkfresh (hsub key hk)
      · show (groupedInsert g (_category_for f) key item).map Prod.fst = _CATEGORY_ORDER
        rw [groupedInsert_fst]; exact hfst

theorem build_fold_inv : ∀ (files : List Entry) (used : List String) (g : Grouped),
    AssemblyInv used g → ∀ st, List.foldlM buildStep (used, g) files = .ok st →
    AssemblyInv st.1 st.2 := by
  intro files
  induction files with
  | nil =>
    intro used g hinv st h
    simp only [List.foldlM_nil] at h
    injection h with h1
    rw [← h1]
    exact hinv
  | cons f fs ih =>
    intro used g hinv st h
    rw [List.foldlM_cons] at h
    cases hstep : buildStep (used, g) f with
    | error e =>
      rw [hstep] at h
      exact Except.noConfusion h
    | ok st1 =>
      rw [hstep] at h
      exact ih st1.1 st1.2 (buildStep_inv used g f hinv st1 hstep) st h

/-- C2: for every input list, a successful assembly yields a document
with the single root key `files` mapping to exactly the five fixed
categories, each present exactly once and in fixed order, and no two
entries anywhere in the entire document share a sanitized key. -/
theorem claim_C2_document_shape :
    ∀ (files : List Entry) (doc : List (String × Grouped)),
    _build_yaml_data files = .ok doc →
    ∃ g, doc = [("files", g)] ∧ g.map Prod.fst = _CATEGORY_ORDER ∧ (docKeys g).Nodup := by
  intro files doc h
  unfold _build_yaml_data at h
  cases hf : List.foldlM buildStep ([], _CATEGORY_ORDER.map (fun k => (k, []))) files with
  | error e => rw [hf] at h; exact absurd h (by simp [Except.map])
  | ok st =>
    rw [hf] at h
    simp only [Except.map] at h
    injection h with h1
    have hinv0 : AssemblyInv [] (_CATEGORY_ORDER.map (fun k => (k, []))) := by
      refine ⟨?_, ?_, by rfl⟩
      · intro x hx
        have : docKeys (_CATEGORY_ORDER.map (fun k => (k, []))) = [] := rfl
        rw [this] at hx
        exact absurd hx (List.not_mem_nil x)
      · have : docKeys (_CATEGORY_ORDER.map (fun k => (k, []))) = [] := rfl
        rw [this]
        exact List.nodup_nil
    have hinv := build_fold_inv files [] _ hinv0 st hf
    exact ⟨st.2, h1.symm, hinv.2.2, hinv.2.1⟩

theorem claim_C2_document_shape_witness :
    ∃ g, ([("files",
      [("configuration", [("etc_foo",
          [("follow", PyVal.bool false), ("force", PyVal.bool true), ("group", PyVal.str "root"),
           ("mode", PyVal.str ""), ("owner", PyVal.str "root"), ("path", PyVal.str "/etc/foo"),
           ("state", PyVal.str "file")])]),
       ("artifacts", []), ("docs", []), ("licenses", []), ("general", [])])] :
        List (String × Grouped)) = [("files", g)] ∧
      g.map Prod.fst = _CATEGORY_ORDER ∧ (docKeys g).Nodup :=
  claim_C2_document_shape [[("path", PyVal.str "/etc/foo"), ("flags", PyVal.list [PyVal.str "config"])]]
    _ rfl

/-! ### Link-resolution lemmas (C4, C10) -/

theorem splitSlash_ne_nil : ∀ cs : List Char, splitSlash cs ≠ [] := by
  intro cs
  cases cs with
  | nil => simp [splitSlash]
  | cons c cs =>
    unfold splitSlash
    by_cases hc : c = '/'
    · simp [hc]
    · simp only [if_neg hc]
      cases splitSlash cs with
      | nil => simp
      | cons h t => simp

theorem splitSlash_append_slash : ∀ cs : List Char, splitSlash (cs ++ ['/']) = splitSlash cs ++ [[]] := by
  intro cs
  induction cs with
  | nil => rfl
  | cons c cs ih =>
    show splitSlash (c :: (cs ++ ['/'])) = splitSlash (c :: cs) ++ [[]]
    unfold splitSlash
    rw [ih]
    by_cases hc : c = '/'
    · simp [hc]
    · simp only [if_neg hc]
      cases hs : splitSlash cs with
      | nil => exact absurd hs (splitSlash_ne_nil cs)
      | cons h t => simp

theorem initSlashes_append_slash (cs : List Char) (hne : cs ≠ [])
    (hlast : cs.getLast? ≠ some '/') :
    initSlashes (cs ++ ['/']) = initSlashes cs := by
  match cs, hne with
  | [a], _ =>
    have ha : a ≠ '/' := by simpa using hlast
    simp [initSlashes, ha]
  | [a, b], _ =>
    have hb : b ≠ '/' := by simpa using hlast
    by_cases ha : a = '/'
    · subst ha; simp [initSlashes, hb]
    · simp [initSlashes, ha]
  | a :: b :: c :: rest, _ =>
    show initSlashes (a :: b :: c :: (rest ++ ['/'])) = initSlashes (a :: b :: c :: rest)
    simp [initSlashes]

theorem normCore_append_slash (cs : List Char) (hne : cs ≠ [])
    (hlast : cs.getLast? ≠ some '/') :
    normCore (cs ++ ['/']) = normCore cs := by
  unfold normCore
  rw [initSlashes_append_slash cs hne hlast, splitSlash_append_slash cs, List.foldl_append]
  simp [normStep]

theorem posixNormpath_append_slash (b : String) (hne : b.data ≠ [])
    (hlast : b.data.getLast? ≠ some '/') :
    posixNormpath (b ++ "/") = posixNormpath b := by
  have hd : (b ++ "/").data = b.data ++ ['/'] := rfl
  have hb : b ≠ "" := fun h => hne (by rw [h])
  have hb2 : b ++ "/" ≠ "" := by
    intro h
    have h2 := congrArg String.data h
    rw [hd] at h2
    simp at h2
  unfold posixNormpath
  rw [if_neg hb, if_neg hb2, hd, normCore_append_slash b.data hne hlast]

theorem startsWithSlash_force (x : String) : startsWithSlash ("/" ++ x) = true := by
  have hd : ("/" ++ x).data = '/' :: x.data := rfl
  simp [startsWithSlash, hd]

theorem linkBaseDir_startsWith (lp : PyVal) : startsWithSlash (linkBaseDir lp) = true := by
  unfold linkBaseDir forceSlash
  by_cases hs : startsWithSlash (orSlash (posixDirname (orSlash (pyStr lp)))) = true
  · rw [if_pos hs]; exact hs
  · rw [if_neg hs]; exact startsWithSlash_force _

theorem startsWithSlash_data_ne (a : String) (h : startsWithSlash a = true) : a.data ≠ [] := by
  intro hd
  unfold startsWithSlash at h
  rw [hd] at h
  simp at h

theorem posixNormpath_join_empty (a : String) (ha : startsWithSlash a = true) :
    posixNormpath (posixJoin a "") = posixNormpath a := by
  have hne : a.data ≠ [] := startsWithSlash_data_ne a ha
  have hae : a ≠ "" := fun h => hne (by rw [h])
  unfold posixJoin
  rw [if_neg (by simp [startsWithSlash])]
  by_cases he : a = "" ∨ endsWithSlash a = true
  · rw [if_pos (by simpa using he), String.append_empty]
  · push_neg at he
    rw [if_neg (by simpa using he), String.append_empty]
    have hlast : a.data.getLast? ≠ some '/' := by
      intro hl
      have : endsWithSlash a = true := by simp [endsWithSlash, hl]
      exact he.2 this
    exact posixNormpath_append_slash a hne hlast

/-- C4: link resolution is purely lexical — an absent or empty target
yields an absent result; a target whose stripped form starts with `/` is
returned after lexical normalization only, independent of the link path;
a relative target is joined to the directory portion of the link path
(defaulting to `/`, and forced to begin with `/` even for a malformed
link path) and then normalized; `../bin/sh` against `/usr/sbin/service`
resolves to `/usr/bin/sh` and `/bin/bash` resolves to itself for any
link path. -/
theorem claim_C4_link_resolution :
    (∀ lp, _abs_link_src PyVal.none lp = Option.none) ∧
    (∀ lp, _abs_link_src (.str "") lp = Option.none) ∧
    (∀ t lp, startsWithSlash (pyStrip t) = true →
      _abs_link_src (.str t) lp = some (posixNormpath (pyStrip t))) ∧
    (∀ lp, startsWithSlash (linkBaseDir lp) = true) ∧
    (linkBaseDir (.str "") = "/") ∧
    (∀ t lp, t.isTruthy = true → startsWithSlash (pyStrip (pyStr t)) = false →
      _abs_link_src t lp = some (posixNormpath (posixJoin (linkBaseDir lp) (pyStrip (pyStr t))))) ∧
    (_abs_link_src (.str "../bin/sh") (.str "/usr/sbin/service") = some "/usr/bin/sh") ∧
    (∀ lp, _abs_link_src (.str "/bin/bash") lp = some "/bin/bash") := by
  refine ⟨fun lp => rfl, fun lp => rfl, ?_, linkBaseDir_startsWith, rfl, ?_, rfl, fun lp => rfl⟩
  · intro t lp h
    have ht : t ≠ "" := by
      intro heq
      rw [heq] at h
      exact absurd h (by decide)
    have htr : (PyVal.str t).isTruthy = true := by simp [PyVal.isTruthy, ht]
    have hps : pyStr (.str t) = t := rfl
    simp [_abs_link_src, htr, hps, h]
  · intro t lp htr h
    simp [_abs_link_src, htr, h]

theorem claim_C4_link_resolution_witness :
    _abs_link_src (.str "/etc ") (.str "x") = some (posixNormpath (pyStrip "/etc ")) ∧
    _abs_link_src (.str "lib") (.str "/usr/x") =
      some (posixNormpath (posixJoin (linkBaseDir (.str "/usr/x")) (pyStrip (pyStr (.str "lib"))))) :=
  ⟨claim_C4_link_resolution.2.2.1 "/etc " (.str "x") (by decide),
   claim_C4_link_resolution.2.2.2.2.2.1 (.str "lib") (.str "/usr/x") rfl (by decide)⟩

/-- C10: a link target that is non-empty but all whitespace is treated as
present — the emptiness test precedes the strip — and resolves to the
lexically normalized (forced) directory portion of the link path; for
example target `"  "` with link path `/usr/sbin/service` yields
`/usr/sbin`, not the absent result an empty target produces. -/
theorem claim_C10_whitespace_target :
    (∀ t lp, t ≠ "" → pyStrip t = "" →
      _abs_link_src (.str t) lp = some (posixNormpath (linkBaseDir lp)) ∧
      (_abs_link_src (.str t) lp).isSome = true) ∧
    (_abs_link_src (.str "  ") (.str "/usr/sbin/service") = some "/usr/sbin") ∧
    (_abs_link_src (.str "") (.str "/usr/sbin/service") = Option.none) := by
  refine ⟨?_, rfl, rfl⟩
  intro t lp ht hstrip
  have h1 : _abs_link_src (.str t) lp =
      some (posixNormpath (posixJoin (linkBaseDir lp) (pyStrip (pyStr (.str t))))) := by
    refine claim_C4_link_resolution.2.2.2.2.2.1 (.str t) lp (by simp [PyVal.isTruthy, ht]) ?_
    show startsWithSlash (pyStrip t) = false
    rw [hstrip]
    decide
  have h2 : pyStrip (pyStr (.str t)) = "" := hstrip
  rw [h1, h2, posixNormpath_join_empty _ (linkBaseDir_startsWith lp)]
  simp

theorem claim_C10_whitespace_target_witness :
    _abs_link_src (.str " ") (.str "/a/b") = some (posixNormpath (linkBaseDir (.str "/a/b"))) ∧
    (_abs_link_src (.str " ") (.str "/a/b")).isSome = true :=
  (claim_C10_whitespace_target.1 " " (.str "/a/b") (by decide) rfl)

/-! ### Classification claims (C5, C8) -/

/-- Python `isinstance(flags, (list, tuple))`. -/
def isListLike : PyVal → Bool
  | .list _ => true
  | .tuple _ => true
  | _ => false

theorem entryFlagSet_not_listlike (e : Entry) (h : isListLike (pyGet e "flags") = false) :
    entryFlagSet e = [] := by
  unfold entryFlagSet pyOr
  cases hv : pyGet e "flags" with
  | list xs => rw [hv] at h; exact absurd h (by simp [isListLike])
  | tuple xs => rw [hv] at h; exact absurd h (by simp [isListLike])
  | none => rfl
  | bool b => cases b <;> rfl
  | int n => by_cases hn : (PyVal.int n).isTruthy <;> simp [hn]
  | str s => by_cases hs : (PyVal.str s).isTruthy <;> simp [hs]
  | set xs => by_cases hs : (PyVal.set xs).isTruthy <;> simp [hs]
  | dict kvs => by_cases hd : (PyVal.dict kvs).isTruthy <;> simp [hd]

/-- C5: classification evaluates in strict priority order with first
match winning: `config` gives `configuration`, else `license` gives
`licenses`, else `doc` gives `docs`, else type `link` gives `general`,
else `artifacts`; in particular flags `config, doc` classify as
`configuration`, no flags with type `link` as `general`, and no flags
with type `file` as `artifacts`. -/
theorem claim_C5_classification_priority :
    (∀ e : Entry, "config" ∈ entryFlagSet e → _category_for e = "configuration") ∧
    (∀ e : Entry, "config" ∉ entryFlagSet e → "license" ∈ entryFlagSet e →
      _category_for e = "licenses") ∧
    (∀ e : Entry, "config" ∉ entryFlagSet e → "license" ∉ entryFlagSet e →
      "doc" ∈ entryFlagSet e → _category_for e = "docs") ∧
    (∀ e : Entry, "config" ∉ entryFlagSet e → "license" ∉ entryFlagSet e →
      "doc" ∉ entryFlagSet e → entryTypeLower e = "link" → _category_for e = "general") ∧
    (∀ e : Entry, "config" ∉ entryFlagSet e → "license" ∉ entryFlagSet e →
      "doc" ∉ entryFlagSet e → entryTypeLower e ≠ "link" → _category_for e = "artifacts") ∧
    (_category_for [("flags", .list [.str "config", .str "doc"])] = "configuration") ∧
    (_category_for [("flags", .list []), ("type", .str "link")] = "general") ∧
    (_category_for [("flags", .list []), ("type", .str "file")] = "artifacts") := by
  refine ⟨?_, ?_, ?_, ?_, ?_, rfl, rfl, rfl⟩ <;>
    (intro e; intros; simp [_category_for, *])

theorem claim_C5_classification_priority_witness :
    _category_for [("flags", .list [.str "config", .str "doc"]), ("type", .str "file")] =
      "configuration" ∧
    _category_for [("flags", .tuple [.str "license"])] = "licenses" ∧
    _category_for [("type", .str "LINK")] = "general" :=
  ⟨claim_C5_classification_priority.1 _ (by decide),
   claim_C5_classification_priority.2.1 _ (by decide) (by decide),
   claim_C5_classification_priority.2.2.2.1 _ (by decide) (by decide) (by decide) (by decide)⟩

/-- C8 (counterexample): a record whose `flags` field is a Python set
containing `config` does *not* classify as `configuration` — the code
tests `isinstance(flags, (list, tuple))`, so a set is coerced to the
empty flag set and the record falls through to the type rule. -/
theorem claim_C8_counterexample :
    _category_for [("flags", .set [.str "config"]), ("type", .str "file")] = "artifacts" ∧
    _category_for [("flags", .set [.str "config"]), ("type", .str "file")] ≠ "configuration" :=
  ⟨rfl, by decide⟩

/-- C8 (amended): classification treats any `flags` value that is not a
list or tuple — including a Python set — as the empty flag set; hence a
record whose flags field is a set, even one containing `config`, is
classified by its type alone (`general` for `link`, else `artifacts`). -/
theorem claim_C8_set_flags_amended :
    ∀ (e : Entry) (xs : List PyVal), pyGet e "flags" = .set xs →
      entryFlagSet e = [] ∧
      _category_for e = (if entryTypeLower e = "link" then "general" else "artifacts") := by
  intro e xs h
  have hf : entryFlagSet e = [] :=
    entryFlagSet_not_listlike e (by rw [h]; rfl)
  refine ⟨hf, ?_⟩
  simp [_category_for, hf]

theorem claim_C8_set_flags_amended_witness :
    entryFlagSet [("flags", PyVal.set [PyVal.str "config"]), ("type", PyVal.str "file")] = [] ∧
    _category_for [("flags", PyVal.set [PyVal.str "config"]), ("type", PyVal.str "file")] =
      (if entryTypeLower [("flags", PyVal.set [PyVal.str "config"]), ("type", PyVal.str "file")] =
        "link" then "general" else "artifacts") :=
  claim_C8_set_flags_amended _ [PyVal.str "config"] rfl

/-! ### Malformed-input tolerance (C9) -/

/-- C9: with the claim's malformations — `flags` present but not
list-like, and `path`, `type`, `mode`, `owner`, `group` absent — no stage
raises: the flag set degrades to empty, the category to `artifacts`, the
state to `file`, owner and group to `root`, the mode to the empty string,
the key to `root`, the whole assembly succeeds with the defaulted item,
and the merge silently drops the record (its path is absent). -/
theorem claim_C9_malformed_tolerance :
    ∀ e : Entry, pyGet e "path" = PyVal.none → pyGet e "type" = PyVal.none →
      pyGet e "mode" = PyVal.none → pyGet e "owner" = PyVal.none →
      pyGet e "group" = PyVal.none → isListLike (pyGet e "flags") = false →
      entryFlagSet e = [] ∧
      _category_for e = "artifacts" ∧
      _state_from_type (pyGet e "type") = .ok "file" ∧
      _build_item e = .ok [("follow", .bool false), ("force", .bool true),
        ("group", .str "root"), ("mode", .str ""), ("owner", .str "root"),
        ("path", .str ""), ("state", .str "file")] ∧
      _sanitize_key (pyOr (pyGet e "path") (.str "")) [] = .ok ("root", ["root"]) ∧
      _build_yaml_data [e] = .ok [("files",
        [("configuration", []),
         ("artifacts", [("root", [("follow", .bool false), ("force", .bool true),
            ("group", .str "root"), ("mode", .str ""), ("owner", .str "root"),
            ("path", .str ""), ("state", .str "file")])]),
         ("docs", []), ("licenses", []), ("general", [])])] ∧
      _merge_files_from_packages [[("files", .list [.dict e])]] = .ok [] := by
  intro e hpath htype hmode howner hgroup hflags
  have hf : entryFlagSet e = [] := entryFlagSet_not_listlike e hflags
  have htl : entryTypeLower e = "" := by
    unfold entryTypeLower
    rw [htype]
    rfl
  have hcat : _category_for e = "artifacts" := by
    simp [_category_for, hf, htl]
  have hstate : _state_from_type (pyGet e "type") = .ok "file" := by
    rw [htype]
    rfl
  have hitem : _build_item e = .ok [("follow", .bool false), ("force", .bool true),
      ("group", .str "root"), ("mode", .str ""), ("owner", .str "root"),
      ("path", .str ""), ("state", .str "file")] := by
    unfold _build_item
    rw [hpath, hgroup, hmode, howner, htype]
    rfl
  have hsan : _sanitize_key (pyOr (pyGet e "path") (.str "")) [] = .ok ("root", ["root"]) := by
    rw [hpath]
    rfl
  have hbuild : _build_yaml_data [e] = .ok [("files",
      [("configuration", []),
       ("artifacts", [("root", [("follow", .bool false), ("force", .bool true),
          ("group", .str "root"), ("mode", .str ""), ("owner", .str "root"),
          ("path", .str ""), ("state", .str "file")])]),
       ("docs", []), ("licenses", []), ("general", [])])] := by
    have hstep : buildStep ([], _CATEGORY_ORDER.map (fun k => (k, []))) e =
        .ok (["root"],
          [("configuration", []),
           ("artifacts", [("root", [("follow", .bool false), ("force", .bool true),
              ("group", .str "root"), ("mode", .str ""), ("owner", .str "root"),
              ("path", .str ""), ("state", .str "file")])]),
           ("docs", []), ("licenses", []), ("general", [])]) := by
      unfold buildStep
      rw [hcat, hsan, hitem]
      rfl
    unfold _build_yaml_data
    rw [List.foldlM_cons, hstep]
    rfl
  have hmerge : _merge_files_from_packages [[("files", .list [.dict e])]] = .ok [] := by
    have hms : mergeStep ([], []) (.dict e) = .ok ([], []) := by
      simp only [mergeStep]
      rw [hpath]
      rfl
    have hpk : mergePkg ([], []) [("files", PyVal.list [PyVal.dict e])] = .ok ([], []) := by
      show List.foldlM mergeStep ([], []) [PyVal.dict e] = .ok ([], [])
      rw [List.foldlM_cons, hms]
      rfl
    unfold _merge_files_from_packages
    rw [List.foldlM_cons, hpk]
    rfl
  exact ⟨hf, hcat, hstate, hitem, hsan, hbuild, hmerge⟩

theorem claim_C9_malformed_tolerance_witness :
    entryFlagSet [("flags", PyVal.str "bad")] = [] ∧
    _category_for [("flags", PyVal.str "bad")] = "artifacts" ∧
    _state_from_type (pyGet [("flags", PyVal.str "bad")] "type") = .ok "file" ∧
    _build_item [("flags", PyVal.str "bad")] = .ok [("follow", PyVal.bool false),
      ("force", PyVal.bool true), ("group", PyVal.str "root"), ("mode", PyVal.str ""),
      ("owner", PyVal.str "root"), ("path", PyVal.str ""), ("state", PyVal.str "file")] ∧
    _sanitize_key (pyOr (pyGet [("flags", PyVal.str "bad")] "path") (PyVal.str "")) [] =
      .ok ("root", ["root"]) ∧
    _build_yaml_data [[("flags", PyVal.str "bad")]] = .ok [("files",
      [("configuration", []),
       ("artifacts", [("root", [("follow", PyVal.bool false), ("force", PyVal.bool true),
          ("group", PyVal.str "root"), ("mode", PyVal.str ""), ("owner", PyVal.str "root"),
          ("path", PyVal.str ""), ("state", PyVal.str "file")])]),
       ("docs", []), ("licenses", []), ("general", [])])] ∧
    _merge_files_from_packages [[("files", PyVal.list [PyVal.dict [("flags", PyVal.str "bad")]])]] =
      .ok [] :=
  claim_C9_malformed_tolerance [("flags", PyVal.str "bad")] rfl rfl rfl rfl rfl rfl

/-! ### Merge equivalence (C6) -/

theorem prevPathStrings_append_kept (out : List Entry) (kvs : Entry) (s : String)
    (h : pyGet kvs "path" = .str s) :
    prevPathStrings (out ++ [kvs]) = prevPathStrings out ++ [s] := by
  unfold prevPathStrings
  rw [List.filterMap_append]
  congr 1
  simp [h]

theorem seen_any_iff (l : List String) (s : String) :
    (l.map PyVal.str).any (fun q => q.beq (.str s)) = decide (s ∈ l) := by
  induction l with
  | nil => rfl
  | cons t l ih =>
    rw [List.map_cons, List.any_cons]
    have hbeq : (PyVal.str t).beq (PyVal.str s) = (t == s) := rfl
    rw [hbeq, ih]
    by_cases h : t = s
    · subst h; simp
    · simp [List.mem_cons, h, Ne.symm h]

theorem mergeStep_spec (out : List Entry) (f : PyVal) (hf : goodFile f = true) :
    mergeStep ((prevPathStrings out).map PyVal.str, out) f =
      .ok ((prevPathStrings (specKeep out f)).map PyVal.str, specKeep out f) := by
  cases f with
  | dict kvs =>
    have hf2 : pathOk (pyGet kvs "path") = true := by simpa [goodFile] using hf
    simp only [mergeStep, specKeep]
    cases hp : pyGet kvs "path" with
    | str s =>
      by_cases hs : s = ""
      · subst hs
        simp [PyVal.isTruthy]
      · have htr : (PyVal.str s).isTruthy = true := by simp [PyVal.isTruthy, hs]
        rw [htr]
        simp only [Bool.not_true, Bool.false_eq_true, if_false, PyVal.hashable]
        rw [seen_any_iff (prevPathStrings out) s]
        by_cases hmem : s ∈ prevPathStrings out
        · simp [hmem, hs]
        · have hcond : (s ≠ "" ∧ s ∉ prevPathStrings out) := ⟨hs, hmem⟩
          rw [decide_eq_false hmem, if_neg (by simp), if_pos hcond,
            prevPathStrings_append_kept out kvs s hp]
          simp
    | none => simp [PyVal.isTruthy]
    | bool b => rw [hp] at hf2; exact absurd hf2 (by simp [pathOk])
    | int n => rw [hp] at hf2; exact absurd hf2 (by simp [pathOk])
    | list xs => rw [hp] at hf2; exact absurd hf2 (by simp [pathOk])
    | tuple xs => rw [hp] at hf2; exact absurd hf2 (by simp [pathOk])
    | set xs => rw [hp] at hf2; exact absurd hf2 (by simp [pathOk])
    | dict kvs2 => rw [hp] at hf2; exact absurd hf2 (by simp [pathOk])
  | none => exact absurd hf (by simp [goodFile])
  | bool b => exact absurd hf (by simp [goodFile])
  | int n => exact absurd hf (by simp [goodFile])
  | str s => exact absurd hf (by simp [goodFile])
  | list xs => exact absurd hf (by simp [goodFile])
  | tuple xs => exact absurd hf (by simp [goodFile])
  | set xs => exact absurd hf (by simp [goodFile])

theorem merge_fold_spec (fs : List PyVal) : ∀ out : List Entry, (∀ f ∈ fs, goodFile f = true) →
    List.foldlM mergeStep ((prevPathStrings out).map PyVal.str, out) fs =
      .ok ((prevPathStrings (fs.foldl specKeep out)).map PyVal.str, fs.foldl specKeep out) := by
  induction fs with
  | nil => intro out _; rfl
  | cons f fs ih =>
    intro out hg
    rw [List.foldlM_cons, mergeStep_spec out f (hg f (by simp))]
    have := ih (specKeep out f) (fun f2 h2 => hg f2 (by simp [h2]))
    simpa [List.foldl_cons] using this

theorem mergePkg_spec (pkg : Entry) (out : List Entry) (hg : goodPkg pkg = true) :
    mergePkg ((prevPathStrings out).map PyVal.str, out) pkg =
      .ok ((prevPathStrings (((pkgFilesList pkg).getD []).foldl specKeep out)).map PyVal.str,
        ((pkgFilesList pkg).getD []).foldl specKeep out) := by
  unfold goodPkg at hg
  unfold mergePkg
  unfold pkgFilesList at hg ⊢
  cases hv : pyOr (pyGet pkg "files") (.list []) with
  | list fs =>
    rw [hv] at hg
    simp only [Option.getD_some]
    exact merge_fold_spec fs out (by simpa [List.all_eq_true] using hg)
  | tuple fs =>
    rw [hv] at hg
    simp only [Option.getD_some]
    exact merge_fold_spec fs out (by simpa [List.all_eq_true] using hg)
  | none => rw [hv] at hg; exact absurd hg (by simp)
  | bool b => rw [hv] at hg; exact absurd hg (by simp)
  | int n => rw [hv] at hg; exact absurd hg (by simp)
  | str s => rw [hv] at hg; exact absurd hg (by simp)
  | set xs => rw [hv] at hg; exact absurd hg (by simp)
  | dict kvs => rw [hv] at hg; exact absurd hg (by simp)

theorem foldl_specKeep_flatten : ∀ (L : List (List PyVal)) (out : List Entry),
    (L.flatten).foldl specKeep out = L.foldl (fun acc l => l.foldl specKeep acc) out := by
  intro L
  induction L with
  | nil => intro out; rfl
  | cons l L ih => intro out; rw [List.flatten_cons, List.foldl_append, List.foldl_cons, ih]

/-- C6: the merge processes packages and file records in input order and
equals the spec-side fold that keeps a record exactly when its path is a
non-empty string not equal to the path of any previously kept record —
first occurrence wins, later duplicates are silently dropped, and output
preserves first-seen order. -/
theorem claim_C6_merge_dedup : ∀ pkgs : List Entry, (∀ p ∈ pkgs, goodPkg p = true) →
    _merge_files_from_packages pkgs = .ok (mergeSpecSide (allFiles pkgs)) := by
  intro pkgs hg
  have hmain : ∀ out : List Entry, (∀ p ∈ pkgs, goodPkg p = true) →
      List.foldlM mergePkg ((prevPathStrings out).map PyVal.str, out) pkgs =
        .ok ((prevPathStrings (pkgs.foldl
            (fun acc p => ((pkgFilesList p).getD []).foldl specKeep acc) out)).map PyVal.str,
          pkgs.foldl (fun acc p => ((pkgFilesList p).getD []).foldl specKeep acc) out) := by
    clear hg
    induction pkgs with
    | nil => intro out _; rfl
    | cons p pkgs ih =>
      intro out hg
      rw [List.foldlM_cons, mergePkg_spec p out (hg p (by simp))]
      have := ih (((pkgFilesList p).getD []).foldl specKeep out)
        (fun p2 h2 => hg p2 (by simp [h2]))
      simpa [List.foldl_cons] using this
  have h0 := hmain [] hg
  unfold _merge_files_from_packages
  have hpp : prevPathStrings ([] : List Entry) = [] := rfl
  rw [hpp] at h0
  simp only [List.map_nil] at h0
  rw [h0]
  unfold mergeSpecSide allFiles
  rw [foldl_specKeep_flatten, List.foldl_map]
  rfl

theorem claim_C6_merge_dedup_witness :
    _merge_files_from_packages
      [[("files", .list [.dict [("path", .str "/etc/foo.conf"), ("mode", .str "0600")]])],
       [("files", .list [.dict [("path", .str "/etc/foo.conf"), ("mode", .str "0644")],
                         .dict [("path", .str "/etc/bar"), ("mode", .str "0755")]])]] =
      .ok [[("path", .str "/etc/foo.conf"), ("mode", .str "0600")],
           [("path", .str "/etc/bar"), ("mode", .str "0755")]] :=
  claim_C6_merge_dedup
    [[("files", .list [.dict [("path", .str "/etc/foo.conf"), ("mode", .str "0600")]])],
     [("files", .list [.dict [("path", .str "/etc/foo.conf"), ("mode", .str "0644")],
                       .dict [("path", .str "/etc/bar"), ("mode", .str "0755")]])]]
    (by decide)

/-! ### Fallback emitter (C7) -/

theorem propLines_eq_spec (props : Item) : propLines props = propLinesSpec props := by
  unfold propLines propLinesSpec
  have hfun : (fun (acc : List String) pk =>
      match odGet props pk with
      | some v =>
          if ¬ isNoneOrEmptyStr v then acc ++ ["      " ++ pk ++ ": " ++ qScalar v]
          else if pk = "follow" ∨ pk = "force" then acc ++ ["      " ++ pk ++ ": " ++ qScalar v]
          else acc
      | Option.none => acc) =
      (fun (acc : List String) pk =>
      match odGet props pk with
      | some v =>
          if ¬ isNoneOrEmptyStr v ∨ pk = "follow" ∨ pk = "force" then
            acc ++ ["      " ++ pk ++ ": " ++ qScalar v]
          else acc
      | Option.none => acc) := by
    funext acc pk
    cases odGet props pk with
    | none => rfl
    | some v =>
      by_cases hv : isNoneOrEmptyStr v = true
      · by_cases hff : pk = "follow" ∨ pk = "force"
        · simp [hv, hff]
        · simp [hv, hff]
      · simp [hv]
  rw [hfun]

/-- C7: the fallback emitter writes all five category lines in fixed
order (childless when empty); within an item, properties appear in the
fixed order `follow, force, group, mode, owner, path, state, src`; a
property line appears exactly when the property is present and its value
is neither `None` nor the empty string, or when it is `follow`/`force`
(always emitted, including when false); booleans render as bare
`true`/`false`, `None` as an empty quoted string, and every other scalar
single-quoted with embedded single quotes doubled.  Stated as equality
with the emitter transcribed from the spec's words, plus the concrete
quoting rules. -/
theorem claim_C7_fallback_emitter :
    (∀ data : List (String × Grouped), _yaml_dump_lines data = yamlDumpSpecLines data) ∧
    qScalar (.bool true) = "true" ∧
    qScalar (.bool false) = "false" ∧
    qScalar PyVal.none = "\x27\x27" ∧
    qScalar (.str "it\x27s") = "\x27it\x27\x27s\x27" ∧
    qScalar (.str "0644") = "\x270644\x27" := by
  refine ⟨?_, rfl, rfl, rfl, rfl, rfl⟩
  intro data
  unfold _yaml_dump_lines yamlDumpSpecLines
  simp only [propLines_eq_spec]
